import Mathlib

/-!
Verification development for the weekly dividend reconciliation engine of
`AlpacaReporter_Divtracker/divtracker.py`.

The Python source is shallowly embedded: floating point money/quantity values
are modelled as exact rationals (`ℚ`), Python `int()` truncation is `pyInt`,
dictionaries keyed by strings are association lists or functions with a
default, and code that can raise (the date parser inside the grouping loop)
returns `Except`.  The `Div/W` table cell is kept as a `String`, because the
sticky-override test in the source is string truthiness of the stripped cell
content; `hasContent s` models the truthiness of Python's `s.strip()`.
-/

set_option linter.unusedVariables false
set_option maxRecDepth 1000000

/-- Python `int()` applied to a rational: truncation toward zero. -/
def pyInt (q : ℚ) : ℤ := if 0 ≤ q then ⌊q⌋ else -⌊-q⌋

/-- Python `round(x, 2)` used when storing the symbol's invested capital
(`round(total_invested, 2)`); rounding to two decimal places. -/
def roundTo2 (q : ℚ) : ℚ := (⌊q * 100 + 1/2⌋ : ℚ) / 100

/-- Truthiness of Python `s.strip()`: the string contains at least one
non-whitespace character. -/
def hasContent (s : String) : Bool := s.data.any fun c => !c.isWhitespace

/-- Python `s.lower().strip()` applied to the fill sub-type field:
lowercase every character, then drop whitespace from both ends. -/
def lowerStrip (s : String) : String :=
  ⟨(((s.data.map Char.toLower).dropWhile Char.isWhitespace).reverse.dropWhile
      Char.isWhitespace).reverse⟩

/-- Zero-padding to two digits, as in the f-string `f"{w:02d}"`. -/
def pad2 (n : ℕ) : String := if n < 10 then "0" ++ toString n else toString n

/-- Zero-padding to four digits (fractional part of a `.4f` rendering). -/
def pad4 (n : ℕ) : String :=
  if n < 10 then "000" ++ toString n
  else if n < 100 then "00" ++ toString n
  else if n < 1000 then "0" ++ toString n
  else toString n

/-- Rendering of the computed dividend rate, modelling `f"{rate:.4f}"`:
the rational rounded to four decimal places, printed with a sign, an
integer part, a dot and four fractional digits. -/
def formatFixed4 (q : ℚ) : String :=
  let n : ℤ := ⌊q * 10000 + 1/2⌋
  (if n < 0 then "-" else "") ++ toString (n.natAbs / 10000) ++ "." ++ pad4 (n.natAbs % 10000)

/-! ## Gregorian/ISO calendar (models `datetime.fromisoformat` + `isocalendar`) -/

/-- Gregorian leap-year test. -/
def isLeap (y : ℕ) : Bool := (y % 4 == 0 && y % 100 != 0) || (y % 400 == 0)

/-- Number of days in month `m` of year `y`. -/
def daysInMonth (y m : ℕ) : ℕ :=
  if m = 2 then (if isLeap y then 29 else 28)
  else if m = 4 ∨ m = 6 ∨ m = 9 ∨ m = 11 then 30
  else 31

/-- Day of the year (1-based) of the date `y-m-d`. -/
def dayOfYear (y m d : ℕ) : ℕ :=
  d + (List.range (m - 1)).foldl (fun acc i => acc + daysInMonth y (i + 1)) 0

/-- Rata-die day number (days since 0000-12-31 in the proleptic Gregorian
calendar); `rataDie 1 1 1 = 1` and that day is a Monday. -/
def rataDie (y m d : ℕ) : ℕ :=
  365 * (y - 1) + (y - 1) / 4 + (y - 1) / 400 + dayOfYear y m d - (y - 1) / 100

/-- Number of ISO weeks (52 or 53) in ISO year `y`. -/
def isoWeeksInYear (y : ℕ) : ℕ :=
  let p : ℕ → ℕ := fun yy => (yy + yy / 4 + yy / 400 - yy / 100) % 7
  52 + (if p y = 4 ∨ p (y - 1) = 3 then 1 else 0)

/-- ISO calendar `(isoYear, isoWeek)` of a Gregorian date, as returned by
Python's `date.isocalendar()`. -/
def isoWeekOf (y m d : ℕ) : ℕ × ℕ :=
  let doy := dayOfYear y m d
  let wd := (rataDie y m d + 6) % 7 + 1
  let w := (doy + 10 - wd) / 7
  if w = 0 then (y - 1, isoWeeksInYear (y - 1))
  else if isoWeeksInYear y < w then (y + 1, 1)
  else (y, w)

/-- Parse one decimal digit. -/
def digit? (c : Char) : Option ℕ := if c.isDigit then some (c.toNat - 48) else none

/-- Parse a `"YYYY-MM-DD"` date string, validating ranges exactly as
`datetime.fromisoformat` does (year 1..9999, month 1..12, day within the
month); any other shape is a parse error (a raised `ValueError`). -/
def parseDate? (s : String) : Option (ℕ × ℕ × ℕ) :=
  match s.data with
  | [y1, y2, y3, y4, '-', m1, m2, '-', d1, d2] => do
    let a ← digit? y1; let b ← digit? y2; let c ← digit? y3; let d ← digit? y4
    let e ← digit? m1; let f ← digit? m2
    let g ← digit? d1; let h ← digit? d2
    let y := ((a * 10 + b) * 10 + c) * 10 + d
    let m := e * 10 + f
    let dd := g * 10 + h
    if 1 ≤ y ∧ 1 ≤ m ∧ m ≤ 12 ∧ 1 ≤ dd ∧ dd ≤ daysInMonth y m then
      some (y, m, dd)
    else none
  | _ => none

/-- Week key string `f"{w:02d}/{y}"` of a date string, i.e. the composition
`datetime.fromisoformat`, `.isocalendar()`, f-string formatting. -/
def isoWeekKey? (s : String) : Option String :=
  (parseDate? s).map fun t =>
    let iw := isoWeekOf t.1 t.2.1 t.2.2
    pad2 iw.2 ++ "/" ++ toString iw.1

/-! ## Activities and the paginated fetch -/

/-- One raw brokerage activity record (the JSON dict fields the program
reads; absent keys are `none` / the `get` defaults). -/
structure Activity where
  id : Option String := none
  activity_type : String := ""
  symbol : Option String := none
  date : Option String := none
  transaction_time : Option String := none
  side : Option String := none
  type : String := ""
  qty : ℚ := 0
  price : ℚ := 0
  net_amount : Option ℚ := none
  amount : ℚ := 0
deriving DecidableEq, Repr

/-- The date string the grouping loop resolves for an activity:
`a.get("date") or a.get("transaction_time", "")[:10]`. -/
def dstrOf (a : Activity) : String :=
  match a.date with
  | some d => if d = "" then (a.transaction_time.getD "").take 10 else d
  | none => (a.transaction_time.getD "").take 10

/-- The truthy last date of a page, `data[-1].get("date") or
data[-1].get("transaction_time")`, used to advance pagination. -/
def lastDateOf (data : List Activity) : Option String :=
  match data.getLast? with
  | none => none
  | some a =>
    let d := a.date.getD ""
    if d ≠ "" then some d
    else
      match a.transaction_time with
      | some t => if t ≠ "" then some t else none
      | none => none

/-- The pagination loop of `get_activities_by_type`, driven by the stream of
server responses (one entry per HTTP request; `Except.error ()` is a raised
`requests.exceptions.RequestException`).  Mirrors the source: on an error the
loop breaks, keeping `all_activities` accumulated so far; on an empty page it
breaks; it appends the page, breaks if the page is short (< 100) or the last
record has no usable date, and otherwise continues with the next response. -/
def fetchPages : List Activity → List (Except Unit (List Activity)) → List Activity
  | acc, [] => acc
  | acc, resp :: rest =>
    match resp with
    | .error _ => acc
    | .ok data =>
      if data.isEmpty then acc
      else
        let acc1 := acc ++ data
        if data.length < 100 then acc1
        else
          match lastDateOf data with
          | some _ => fetchPages acc1 rest
          | none => acc1

/-- `get_activities_by_type`: run the pagination loop from an empty
accumulator; note the return type carries no failure channel. -/
def getActivitiesByType (responses : List (Except Unit (List Activity))) : List Activity :=
  fetchPages [] responses

/-! ## Weekly buckets and grouping (lines 572-645 of the source) -/

/-- One entry of a bucket's contributing `trades` list. -/
structure Trade where
  order_id : String
  qty : ℚ
  price : ℚ
deriving DecidableEq, Repr

/-- Per (symbol, week) accumulator of the grouping loop; field names follow
the source's dict keys, defaults are the `defaultdict` initial values. -/
structure Bucket where
  div_gross : ℚ := 0
  div_tax : ℚ := 0
  buy_total_cost : ℚ := 0
  buy_total_qty : ℚ := 0
  sell_total_cost : ℚ := 0
  sell_total_qty : ℚ := 0
  trades : List Trade := []
deriving DecidableEq, Repr

/-- The week's net dividend as the engine computes it:
`net_div = gross_div - abs(div_tax)`. -/
def Bucket.netDiv (b : Bucket) : ℚ := b.div_gross - |b.div_tax|

/-- State of the grouping loop: `seen_order_ids`, the duplicates flagged by
the `[DUPLICATE]` print, the nested `grouped` defaultdict (as a total
function with the empty bucket as default) and the dict key orders. -/
structure GroupSt where
  seen : List String
  dups : List String
  buckets : String → String → Bucket
  symKeys : List String
  weekKeys : String → List String

/-- The initial grouping state (an empty `defaultdict`). -/
def GroupSt.init : GroupSt :=
  { seen := [], dups := [], buckets := fun _ _ => {}, symKeys := [], weekKeys := fun _ => [] }

/-- Mutate `grouped[sym][kw]` through `f`, registering the dict keys in
insertion order as a Python `defaultdict` does. -/
def GroupSt.touch (st : GroupSt) (sym kw : String) (f : Bucket → Bucket) : GroupSt :=
  { st with
    buckets := fun s k => if s = sym ∧ k = kw then f (st.buckets sym kw) else st.buckets s k,
    symKeys := if sym ∈ st.symKeys then st.symKeys else st.symKeys ++ [sym],
    weekKeys := fun s =>
      if s = sym then
        (if kw ∈ st.weekKeys sym then st.weekKeys sym else st.weekKeys sym ++ [kw])
      else st.weekKeys s }

/-- One iteration of the grouping loop (lines 587-645): guards on symbol and
date, week-key resolution (a parse failure is the `ValueError` that aborts
the sync), then the `FILL` / `DIV` / `DIVNRA` branches.  Fill dedup by
`order_id` happens only inside the `FILL` branch, before the ignore and
quantity checks. -/
def groupStep (stateKeys : List String) (ignored_trades : List String)
    (st : GroupSt) (a : Activity) : Except String GroupSt :=
  match a.symbol with
  | none => .ok st
  | some sym =>
    if sym = "" ∨ sym ∉ stateKeys then .ok st
    else
      let typ := a.activity_type
      let dstr := dstrOf a
      if dstr = "" then .ok st
      else
        match isoWeekKey? dstr with
        | none => .error "invalid date"
        | some kw =>
          if typ = "FILL" then
            let side := a.side
            let trade_type := lowerStrip a.type
            if trade_type ≠ "fill" ∧ trade_type ≠ "partial_fill" then .ok st
            else
              let order_id := a.id.getD (sym ++ "_" ++ kw)
              if order_id ∈ st.seen then
                .ok { st with dups := st.dups ++ [order_id] }
              else
                let st1 := { st with seen := st.seen ++ [order_id] }
                if order_id ∈ ignored_trades then .ok st1
                else if a.qty ≤ 0 then .ok st1
                else
                  let cost := a.qty * a.price
                  if side = some "buy" then
                    .ok (st1.touch sym kw fun b =>
                      { b with buy_total_cost := b.buy_total_cost + cost,
                               buy_total_qty := b.buy_total_qty + a.qty,
                               trades := b.trades ++ [⟨order_id, a.qty, a.price⟩] })
                  else if side = some "sell" then
                    .ok (st1.touch sym kw fun b =>
                      { b with sell_total_cost := b.sell_total_cost + cost,
                               sell_total_qty := b.sell_total_qty + a.qty })
                  else .ok st1
          else if typ = "DIV" then
            .ok (st.touch sym kw fun b =>
              { b with div_gross := b.div_gross + a.net_amount.getD a.amount })
          else if typ = "DIVNRA" then
            .ok (st.touch sym kw fun b =>
              { b with div_tax := b.div_tax + a.net_amount.getD a.amount })
          else .ok st

/-- The whole grouping pass over the fetched activity list. -/
def groupActs (stateKeys ignored_trades : List String) (acts : List Activity) :
    Except String GroupSt :=
  acts.foldlM (groupStep stateKeys ignored_trades) GroupSt.init

/-! ## Position rows and the reconciliation engine (lines 674-794) -/

/-- One output table row.  Cell names follow the `COLUMNS` header (KW, Start,
Div/W, Brutto, WHT, Netto, DRIP, Gesamt, Preis, Wert, Ø/Woche, Jahr,
Rendite); monetary cells are kept as the rational value their formatted
string renders, `Div/W` is kept as the literal string because the engine
tests its stripped truthiness, and `Preis` is `none` when left `""`. -/
structure Row where
  kw : String
  start : ℤ
  divW : String
  brutto : ℚ
  wht : ℚ
  netto : ℚ
  drip : ℤ
  gesamt : ℤ
  preis : Option ℚ
  wert : ℚ
  avgWoche : ℚ
  jahr : ℚ
  rendite : ℚ
deriving DecidableEq, Repr

/-- Cumulative state threaded through a symbol's weeks, with the source's
variable names (lines 684-687). -/
structure RState where
  total_invested : ℚ
  cumulative_shares : ℤ
  cumulative_div_total : ℚ
  week_count : ℕ
deriving DecidableEq, Repr

/-- `existing_rows[kw]`: the dict comprehension `{r["KW"]: r for r in rows}`
keeps the last row for a key, so look up the last matching row. -/
def existingLookup (rows : List Row) (kw : String) : Option Row :=
  rows.reverse.find? fun r => r.kw == kw

/-- The recomputation branch of `Div/W` (lines 719-725): the formatted
`gross_div / start_shares` rate when shares were held entering the week,
else the empty cell. -/
def computeDivW (startShares : ℤ) (grossDiv : ℚ) : String :=
  if startShares > 0 then formatFixed4 (grossDiv / (startShares : ℚ)) else ""

/-- The `Div/W` protection (lines 716-725): if the previously stored row for
this week has content in `Div/W` (Python: `.strip()` truthy), reuse it
verbatim; otherwise recompute. -/
def divWCell (existing : List Row) (kw : String) (startShares : ℤ) (grossDiv : ℚ) : String :=
  match existingLookup existing kw with
  | some r => if hasContent r.divW then r.divW else computeDivW startShares grossDiv
  | none => computeDivW startShares grossDiv

/-- Result of the buy-processing step (lines 727-745). -/
structure BuyOut where
  cumulative_shares : ℤ
  total_invested : ℚ
  preis : Option ℚ
  drip : ℤ
deriving DecidableEq, Repr

/-- Buy processing: if the week has buys, add the truncated quantity to the
share count and either classify as DRIP (`net_div >= buy_cost`: invested
capital untouched, `DRIP = int(net_div / avg_buy_price)`) or as external
funding (`invest += buy_cost - net_div`, `DRIP = 0`); with no buys, `Preis`
falls back to the current price when positive. -/
def buyStep (current_price : ℚ) (st : RState) (b : Bucket) (net_div : ℚ) : BuyOut :=
  if b.buy_total_qty > 0 then
    let shares := st.cumulative_shares + pyInt b.buy_total_qty
    let avg_buy_price := b.buy_total_cost / b.buy_total_qty
    if net_div ≥ b.buy_total_cost then
      ⟨shares, st.total_invested, some avg_buy_price, pyInt (net_div / avg_buy_price)⟩
    else
      ⟨shares, st.total_invested + (b.buy_total_cost - net_div), some avg_buy_price, 0⟩
  else
    ⟨st.cumulative_shares, st.total_invested,
      if current_price > 0 then some current_price else none, 0⟩

/-- Sell processing (lines 747-751): any sell subtracts its proceeds from
invested capital and resets the share count to exactly 0. -/
def sellStep (b : Bucket) (shares : ℤ) (invest : ℚ) : ℤ × ℚ :=
  if b.sell_total_qty > 0 then (0, invest - b.sell_total_cost) else (shares, invest)

/-- One iteration of the per-week reconciliation loop body (lines 689-789),
producing the updated cumulative state and the output row. -/
def processWeek (current_price : ℚ) (existing : List Row) (st : RState)
    (kw : String) (b : Bucket) : RState × Row :=
  let start_shares_this_week := st.cumulative_shares
  let gross_div := b.div_gross
  let wht_div := |b.div_tax|
  let net_div := gross_div - wht_div
  let divW := divWCell existing kw start_shares_this_week gross_div
  let bo := buyStep current_price st b net_div
  let ss := sellStep b bo.cumulative_shares bo.total_invested
  let cumulative_shares := ss.1
  let total_invested := ss.2
  let wert := if current_price > 0 then (cumulative_shares : ℚ) * current_price else 0
  let cumulative_div_total := st.cumulative_div_total + net_div
  let week_count := st.week_count + 1
  let avg_per_week := if week_count > 0 then cumulative_div_total / (week_count : ℚ) else 0
  let jahr := if week_count > 0 then (cumulative_div_total / (week_count : ℚ)) * 52 else 0
  let rendite := cumulative_div_total - total_invested
  ({ total_invested := total_invested, cumulative_shares := cumulative_shares,
     cumulative_div_total := cumulative_div_total, week_count := week_count },
   { kw := kw, start := start_shares_this_week, divW := divW, brutto := gross_div,
     wht := wht_div, netto := net_div, drip := bo.drip, gesamt := cumulative_shares,
     preis := bo.preis, wert := wert, avgWoche := avg_per_week, jahr := jahr,
     rendite := rendite })

/-- The reconciliation pass for one symbol: walk the sorted week list in
order, threading the cumulative state from
`{total_invested = 0, cumulative_shares = 0, cumulative_div_total = 0, week_count = 0}`. -/
def reconSymbol (current_price : ℚ) (existing : List Row) :
    RState → List (String × Bucket) → List Row × RState
  | st, [] => ([], st)
  | st, (kw, b) :: rest =>
    let pr := processWeek current_price existing st kw b
    let tail := reconSymbol current_price existing pr.1 rest
    (pr.2 :: tail.1, tail.2)

/-! ## Per-sync state handling (lines 554-570 and 650-794) -/

/-- Stored per-symbol state: invested capital and the row sequence. -/
structure SymState where
  invest : ℚ
  rows : List Row
deriving DecidableEq, Repr

/-- The symbols carrying at least one `DIV`/`DIVNRA` activity with a truthy
symbol field (lines 554-559), in encounter order (set membership only is
used downstream). -/
def divSymStep (l : List String) (a : Activity) : List String :=
  if a.activity_type = "DIV" ∨ a.activity_type = "DIVNRA" then
    match a.symbol with
    | some s => if s ≠ "" ∧ s ∉ l then l ++ [s] else l
    | none => l
  else l

def symbolsWithDivs (acts : List Activity) : List String :=
  acts.foldl divSymStep []

/-- Week-key sort key: `(int(k.split("/")[1]), int(k.split("/")[0]))`. -/
def kwKey (k : String) : ℕ × ℕ :=
  match k.splitOn "/" with
  | [w, y] => (y.toNat?.getD 0, w.toNat?.getD 0)
  | _ => (0, 0)

/-- Boolean comparison of week keys by `(year, week)`. -/
def kwLeb (a b : String) : Bool :=
  decide ((kwKey a).1 < (kwKey b).1) ||
    (decide ((kwKey a).1 = (kwKey b).1) && decide ((kwKey a).2 ≤ (kwKey b).2))

/-- Insert into a sorted week-key list. -/
def insertKw (x : String) : List String → List String
  | [] => [x]
  | y :: ys => if kwLeb x y then x :: y :: ys else y :: insertKw x ys

/-- `sorted(weeks.keys(), key=...)`: sort week keys by `(year, week)`;
the keys of one symbol are pairwise distinct so any sort realizes Python's
`sorted`. -/
def sortWeekKeys : List String → List String
  | [] => []
  | x :: xs => insertKw x (sortWeekKeys xs)

/-- Replace the stored state of `sym` (the in-place
`self.states[sym]["invest"] = ...` / `["rows"] = ...` updates). -/
def updateState (sts : List (String × SymState)) (sym : String) (v : SymState) :
    List (String × SymState) :=
  sts.map fun p => if p.1 = sym then (p.1, v) else p

/-- Recompute one grouped symbol (lines 650-794): ensure the current week's
bucket exists, sort the weeks, look up the previously stored rows for the
`Div/W` protection and run the reconciliation pass; the final invested
capital is stored rounded to two decimals. -/
def computeSym (current_kw : String) (prices : String → ℚ) (grouped : GroupSt)
    (sts : List (String × SymState)) (sym : String) : SymState :=
  let weeks0 := grouped.weekKeys sym
  let weeks1 := if current_kw ∈ weeks0 then weeks0 else weeks0 ++ [current_kw]
  let sortedKws := sortWeekKeys weeks1
  let wlist := sortedKws.map fun k => (k, grouped.buckets sym k)
  let priorRows := ((sts.find? fun p => p.1 == sym).map fun p => p.2.rows).getD []
  let current_price := prices sym
  let res := reconSymbol current_price priorRows ⟨0, 0, 0, 0⟩ wlist
  ⟨roundTo2 res.2.total_invested, res.1⟩

/-- The state table after the removal loop (symbols without dividend
activity popped) and the creation loop (fresh `{"invest": 0.00, "rows": []}`
entries for new dividend symbols), lines 563-570. -/
def preStates (prior : List (String × SymState)) (acts : List Activity) :
    List (String × SymState) :=
  let swd := symbolsWithDivs acts
  let states1 := prior.filter fun p => decide (p.1 ∈ swd)
  states1 ++
    ((swd.filter fun s => decide (s ∉ states1.map Prod.fst)).map
      fun s => ((s, ⟨0, []⟩) : String × SymState))

/-- The state-computing core of `alpaca_sync_all`, from a fetched activity
list: drop tracked symbols without dividend activity, create entries for new
dividend symbols, group the activities, reconcile every grouped symbol and
return the new full state.  `prices` models the positions lookup
(`current_price`, 0 when the symbol has no position); a date `ValueError`
aborts the whole sync (the outer `except`), leaving prior state untouched. -/
def alpacaSyncCore (current_kw : String) (prices : String → ℚ)
    (ignored_trades : List String) (prior : List (String × SymState))
    (acts : List Activity) : Except String (List (String × SymState)) :=
  (groupActs ((preStates prior acts).map Prod.fst) ignored_trades acts).map fun grouped =>
    grouped.symKeys.foldl
      (fun sts sym => updateState sts sym (computeSym current_kw prices grouped sts sym))
      (preStates prior acts)

/-! ## Concrete inputs used by the witnesses and counterexamples -/

/-- A dividend activity (symbol AAA, $5, 2025-01-02, a Thursday in ISO week
01/2025) carrying a fixed identifier. -/
def divAAA : Activity :=
  { id := some "div-1", activity_type := "DIV", symbol := some "AAA",
    date := some "2025-01-02", amount := 5 }

/-- A full page (100 records) of `divAAA` activities, as a paginated fetch
would return before a network error on the next request. -/
def page100 : List Activity := List.replicate 100 divAAA

/-- The week bucket of the C2 scenario: buy 10 shares at $50 (cost $500) and
a $60 gross dividend in one week. -/
def c2bucket : Bucket := { div_gross := 60, buy_total_cost := 500, buy_total_qty := 10 }

/-- A bucket holding only a sell of 20 shares at $30 (proceeds $600). -/
def sellBucket : Bucket := { sell_total_cost := 600, sell_total_qty := 20 }

/-- A prior row whose `Div/W` was pinned to `0.5000`. -/
def pinnedRow : Row :=
  { kw := "01/2025", start := 0, divW := "0.5000", brutto := 0, wht := 0, netto := 0,
    drip := 0, gesamt := 0, preis := none, wert := 0, avgWoche := 0, jahr := 0, rendite := 0 }

/-- The start/total chaining invariant of a row sequence: the first row
starts from `s` and every later row starts from its predecessor's total. -/
def chained : ℤ → List Row → Prop
  | _, [] => True
  | s, r :: rs => r.start = s ∧ chained r.gesamt rs

/-! ## Helper lemmas -/

theorem hasContent_append (s t : String) :
    hasContent (s ++ t) = (hasContent s || hasContent t) := by
  simp [hasContent, String.data_append, List.any_append]

theorem hasContent_formatFixed4 (q : ℚ) : hasContent (formatFixed4 q) = true := by
  unfold formatFixed4
  rw [hasContent_append, hasContent_append, hasContent_append]
  have hdot : hasContent "." = true := by decide
  simp [hdot]

theorem pyInt_eq_floor {q : ℚ} (h : 0 ≤ q) : pyInt q = ⌊q⌋ := if_pos h

theorem processWeek_start (p : ℚ) (e : List Row) (st : RState) (kw : String) (b : Bucket) :
    (processWeek p e st kw b).2.start = st.cumulative_shares := rfl

theorem processWeek_gesamt (p : ℚ) (e : List Row) (st : RState) (kw : String) (b : Bucket) :
    (processWeek p e st kw b).2.gesamt = (processWeek p e st kw b).1.cumulative_shares := rfl

theorem processWeek_kw (p : ℚ) (e : List Row) (st : RState) (kw : String) (b : Bucket) :
    (processWeek p e st kw b).2.kw = kw := rfl

theorem processWeek_divW (p : ℚ) (e : List Row) (st : RState) (kw : String) (b : Bucket) :
    (processWeek p e st kw b).2.divW = divWCell e kw st.cumulative_shares b.div_gross := rfl

theorem processWeek_invest (p : ℚ) (e : List Row) (st : RState) (kw : String) (b : Bucket) :
    (processWeek p e st kw b).1.total_invested
      = (sellStep b (buyStep p st b (b.div_gross - |b.div_tax|)).cumulative_shares
          (buyStep p st b (b.div_gross - |b.div_tax|)).total_invested).2 := rfl

/-! ## C1: behaviour on a network error during the paginated fetch -/

/-- C1 counterexample: after one full page of 100 activities, a network
error on the next request does not discard the partial result and does not
report failure — `get_activities_by_type` returns the 100 already-fetched
activities as a normal result (its type has no failure channel), and the
sync core then reconciles and persists state computed from that incomplete
activity set (symbol AAA gets rows with the partial dividend totals). -/
theorem C1_fetch_error_counterexample :
    getActivitiesByType [Except.ok page100, Except.error ()] = page100
    ∧ page100 ≠ []
    ∧ (alpacaSyncCore "02/2025" (fun _ => 0) [] [] page100).toOption.map
        (fun sts => sts.map fun p => (p.1, p.2.rows.map Row.brutto))
        = some [("AAA", [500, 0])] := by
  refine ⟨by with_unfolding_all decide, by with_unfolding_all decide, ?_⟩
  with_unfolding_all decide

/-- C1 amended: when a network/HTTP error occurs while fetching an activity
page, the pagination loop breaks and returns the activities accumulated from
the pages already retrieved as an ordinary (successful) fetch result; the
sync is not aborted and reconciliation proceeds on this possibly
incomplete activity set. -/
theorem C1_fetch_error_returns_accumulated (acc : List Activity)
    (rest : List (Except Unit (List Activity))) :
    fetchPages acc (Except.error () :: rest) = acc := rfl

/-! ## C2: the buy 10@$50, div $60, price $55 scenario -/

/-- C2 counterexample: in the spec scenario (one week, buy 10 shares at $50
so `buy_cost = 500`, gross dividend $60, current price $55) the engine does
not take the DRIP branch (60 < 500): the output row has `DRIP = 0` (not 1)
and the invested capital grows by 440 (not 0). -/
theorem C2_scenario_counterexample :
    (reconSymbol 55 [] ⟨0, 0, 0, 0⟩ [("01/2025", c2bucket)]).1.map Row.drip = [0]
    ∧ (reconSymbol 55 [] ⟨0, 0, 0, 0⟩ [("01/2025", c2bucket)]).1.map Row.drip ≠ [1]
    ∧ (reconSymbol 55 [] ⟨0, 0, 0, 0⟩ [("01/2025", c2bucket)]).2.total_invested = 440
    ∧ (reconSymbol 55 [] ⟨0, 0, 0, 0⟩ [("01/2025", c2bucket)]).2.total_invested ≠ 0 := by
  refine ⟨?_, ?_, ?_, ?_⟩ <;> with_unfolding_all decide

/-- C2 amended: for the single week 01/2025 with a buy of 10 shares at $50
and a $60 gross dividend, current price $55, the engine classifies the
purchase as externally funded (`netDiv = 60 < buyCost = 500`):
`reinvestedShares (DRIP) = 0`, `investedCapital` increases by exactly
`500 - 60 = 440`, and the week's `totalShares = 10` and
`marketValue = $550.00` as claimed. -/
theorem C2_scenario_amended :
    (reconSymbol 55 [] ⟨0, 0, 0, 0⟩ [("01/2025", c2bucket)]).1.map Row.drip = [0]
    ∧ (reconSymbol 55 [] ⟨0, 0, 0, 0⟩ [("01/2025", c2bucket)]).2.total_invested = 0 + 440
    ∧ (reconSymbol 55 [] ⟨0, 0, 0, 0⟩ [("01/2025", c2bucket)]).1.map Row.gesamt = [10]
    ∧ (reconSymbol 55 [] ⟨0, 0, 0, 0⟩ [("01/2025", c2bucket)]).1.map Row.wert = [550] := by
  refine ⟨?_, ?_, ?_, ?_⟩ <;> with_unfolding_all decide

/-! ## C3: duplicate-identifier handling in the grouping loop -/

/-- C3 counterexample: two `DIV` activities carrying the same identifier
`"div-1"` are both aggregated — the week's gross dividend becomes $10, not
the $5 a dedup-once rule would give.  Identifier dedup exists only in the
`FILL` branch of the loop; dividend and withholding records are never
checked against `seen_order_ids`. -/
theorem C3_duplicate_div_counterexample :
    (groupActs ["AAA"] [] [divAAA, divAAA]).toOption.map
        (fun g => (g.buckets "AAA" "01/2025").div_gross) = some 10
    ∧ (groupActs ["AAA"] [] [divAAA, divAAA]).toOption.map
        (fun g => (g.buckets "AAA" "01/2025").div_gross) ≠ some 5 := by
  exact ⟨by with_unfolding_all decide, by with_unfolding_all decide⟩

/-- C3 amended: dedup by identifier applies only to `FILL` activities — a
fill whose resolved `order_id` is already in `seen_order_ids` is skipped
(all buckets unchanged) and flagged in the duplicate list — while `DIV` and
`DIVNRA` activities are aggregated on every occurrence, with no identifier
check at all: each `DIV` adds its amount to the week's gross-dividend total
and each `DIVNRA` adds its amount to the week's withholding total,
regardless of any previously seen identifiers. -/
theorem C3_dedup_applies_only_to_fills (stateKeys ignored_trades : List String)
    (st : GroupSt) :
    (∀ (a : Activity) (sym kw : String),
      a.symbol = some sym → ¬(sym = "" ∨ sym ∉ stateKeys) →
      a.activity_type = "FILL" →
      dstrOf a ≠ "" → isoWeekKey? (dstrOf a) = some kw →
      ¬(lowerStrip a.type ≠ "fill" ∧ lowerStrip a.type ≠ "partial_fill") →
      a.id.getD (sym ++ "_" ++ kw) ∈ st.seen →
      groupStep stateKeys ignored_trades st a
        = .ok { st with dups := st.dups ++ [a.id.getD (sym ++ "_" ++ kw)] })
    ∧
    (∀ (a : Activity) (sym kw : String),
      a.symbol = some sym → ¬(sym = "" ∨ sym ∉ stateKeys) →
      a.activity_type = "DIV" →
      dstrOf a ≠ "" → isoWeekKey? (dstrOf a) = some kw →
      groupStep stateKeys ignored_trades st a
        = .ok (st.touch sym kw fun b =>
            { b with div_gross := b.div_gross + a.net_amount.getD a.amount }))
    ∧
    (∀ (a : Activity) (sym kw : String),
      a.symbol = some sym → ¬(sym = "" ∨ sym ∉ stateKeys) →
      a.activity_type = "DIVNRA" →
      dstrOf a ≠ "" → isoWeekKey? (dstrOf a) = some kw →
      groupStep stateKeys ignored_trades st a
        = .ok (st.touch sym kw fun b =>
            { b with div_tax := b.div_tax + a.net_amount.getD a.amount })) := by
  refine ⟨?_, ?_, ?_⟩
  · intro a sym kw hsym hguard hty hd hkw hft hseen
    simp only [groupStep, hsym, hty]
    rw [if_neg hguard, if_neg (by simp [hd]), hkw]
    simp only [if_pos rfl, if_neg hft, if_pos hseen]
    simp
  · intro a sym kw hsym hguard hty hd hkw
    simp only [groupStep, hsym, hty]
    rw [if_neg hguard, if_neg (by simp [hd]), hkw]
    simp
  · intro a sym kw hsym hguard hty hd hkw
    simp only [groupStep, hsym, hty]
    rw [if_neg hguard, if_neg (by simp [hd]), hkw]
    simp

/-- C3 witness: a concrete duplicated fill (id `"f-1"`, already seen) is
dropped from aggregation and flagged, instantiating the amended theorem. -/
theorem C3_dedup_applies_only_to_fills_witness :
    groupStep ["AAA"] []
        { GroupSt.init with seen := ["f-1"] }
        { id := some "f-1", activity_type := "FILL", symbol := some "AAA",
          date := some "2025-01-02", side := some "buy", type := "fill",
          qty := 10, price := 50 }
      = .ok { (({ GroupSt.init with seen := ["f-1"] } : GroupSt)) with dups := [] ++ ["f-1"] } := by
  exact (C3_dedup_applies_only_to_fills ["AAA"] [] { GroupSt.init with seen := ["f-1"] }).1
    { id := some "f-1", activity_type := "FILL", symbol := some "AAA",
      date := some "2025-01-02", side := some "buy", type := "fill",
      qty := 10, price := 50 }
    "AAA" "01/2025" rfl (by decide) rfl (by decide) (by with_unfolding_all decide)
    (by decide) (by decide)

theorem processWeek_shares (p : ℚ) (e : List Row) (st : RState) (kw : String) (b : Bucket) :
    (processWeek p e st kw b).1.cumulative_shares
      = (sellStep b (buyStep p st b (b.div_gross - |b.div_tax|)).cumulative_shares
          (buyStep p st b (b.div_gross - |b.div_tax|)).total_invested).1 := rfl

/-! ## C4: the DRIP heuristic on buy weeks -/

/-- C4: for a week bucket with `buyQty > 0` (and the cost/proceeds sums
nonnegative, as produced by nonnegative prices): if `netDiv ≥ buyCost` the
invested capital is unchanged by buy processing and
`DRIP = floor(netDiv / avgBuyPrice)` with `avgBuyPrice = buyCost/buyQty`,
and the whole week cannot increase the invested capital; otherwise the
invested capital grows by exactly `buyCost − netDiv` and `DRIP = 0`. -/
theorem C4_drip_heuristic (price : ℚ) (existing : List Row) (st : RState)
    (kw : String) (b : Bucket)
    (hq : 0 < b.buy_total_qty) (hc : 0 ≤ b.buy_total_cost) (hs : 0 ≤ b.sell_total_cost) :
    (b.netDiv ≥ b.buy_total_cost →
        (buyStep price st b b.netDiv).total_invested = st.total_invested
      ∧ (buyStep price st b b.netDiv).drip
          = ⌊b.netDiv / (b.buy_total_cost / b.buy_total_qty)⌋
      ∧ (processWeek price existing st kw b).1.total_invested ≤ st.total_invested)
    ∧ (b.netDiv < b.buy_total_cost →
        (buyStep price st b b.netDiv).total_invested
          = st.total_invested + (b.buy_total_cost - b.netDiv)
      ∧ (buyStep price st b b.netDiv).drip = 0) := by
  constructor
  · intro hge
    have hnd : (0 : ℚ) ≤ b.netDiv := le_trans hc hge
    have hdd : (0 : ℚ) ≤ b.netDiv / (b.buy_total_cost / b.buy_total_qty) :=
      div_nonneg hnd (div_nonneg hc hq.le)
    have hb : (buyStep price st b b.netDiv).total_invested = st.total_invested := by
      simp only [buyStep, if_pos hq, if_pos hge]
    refine ⟨hb, ?_, ?_⟩
    · simp only [buyStep, if_pos hq, if_pos hge]
      exact pyInt_eq_floor hdd
    · rw [processWeek_invest]
      have hb2 : (buyStep price st b (b.div_gross - |b.div_tax|)).total_invested
          = st.total_invested := hb
      unfold sellStep
      split
      · simpa [hb2] using by linarith
      · simp [hb2]
  · intro hlt
    constructor <;> simp only [buyStep, if_pos hq, if_neg (not_le.mpr hlt)]

/-- C4 witness: week bucket buy 5@$100 with a $10 dividend (spec's second
scenario): external funding, `invest += 490`, `DRIP = 0`. -/
theorem C4_drip_heuristic_witness :
    (buyStep 0 ⟨0, 0, 0, 0⟩ { div_gross := 10, buy_total_cost := 500, buy_total_qty := 5 }
        (Bucket.netDiv { div_gross := 10, buy_total_cost := 500, buy_total_qty := 5 })).total_invested
      = 0 + (500 - 10)
    ∧ (buyStep 0 ⟨0, 0, 0, 0⟩ { div_gross := 10, buy_total_cost := 500, buy_total_qty := 5 }
        (Bucket.netDiv { div_gross := 10, buy_total_cost := 500, buy_total_qty := 5 })).drip = 0 := by
  have h := (C4_drip_heuristic 0 [] ⟨0, 0, 0, 0⟩ "01/2025"
      { div_gross := 10, buy_total_cost := 500, buy_total_qty := 5 }
      (by with_unfolding_all decide) (by with_unfolding_all decide)
      (by with_unfolding_all decide)).2 (by with_unfolding_all decide)
  have e1 : Bucket.netDiv { div_gross := 10, buy_total_cost := 500, buy_total_qty := 5 } =
      (10 : ℚ) - |(0 : ℚ)| := rfl
  exact ⟨h.1.trans (by with_unfolding_all decide), h.2⟩

/-! ## C6: sell processing -/

/-- C6: in any week bucket with `sellQty > 0`, after processing the week
the cumulative share count (the row's `Gesamt`/totalShares) is exactly 0
regardless of the prior balance or of whether the sell covered the whole
position, and the invested capital ends exactly `sellCost` below its
after-buy-processing value. -/
theorem C6_sell_resets (price : ℚ) (existing : List Row) (st : RState) (kw : String)
    (b : Bucket) (hsell : b.sell_total_qty > 0) :
    (processWeek price existing st kw b).2.gesamt = 0
    ∧ (processWeek price existing st kw b).1.cumulative_shares = 0
    ∧ (processWeek price existing st kw b).1.total_invested
        = (buyStep price st b b.netDiv).total_invested - b.sell_total_cost := by
  have h1 : (processWeek price existing st kw b).1.cumulative_shares = 0 := by
    rw [processWeek_shares]
    unfold sellStep
    rw [if_pos hsell]
  refine ⟨?_, h1, ?_⟩
  · rw [processWeek_gesamt]; exact h1
  · rw [processWeek_invest]
    unfold sellStep
    rw [if_pos hsell]
    rfl

/-- C6 witness: the spec scenario — a sell of 20 shares at $30 (proceeds
$600) on a prior position of 20 shares with $1000 invested: total shares
are forced to 0 and the invested capital drops by exactly $600. -/
theorem C6_sell_resets_witness :
    (processWeek 0 [] ⟨1000, 20, 0, 0⟩ "03/2025" sellBucket).2.gesamt = 0
    ∧ (processWeek 0 [] ⟨1000, 20, 0, 0⟩ "03/2025" sellBucket).1.cumulative_shares = 0
    ∧ (processWeek 0 [] ⟨1000, 20, 0, 0⟩ "03/2025" sellBucket).1.total_invested
        = (buyStep 0 ⟨1000, 20, 0, 0⟩ sellBucket sellBucket.netDiv).total_invested - 600 :=
  C6_sell_resets 0 [] ⟨1000, 20, 0, 0⟩ "03/2025" sellBucket (by with_unfolding_all decide)

/-! ## C5 and C10: the Div/W (divPerShare) cell -/

/-- C5: the week's `Div/W` cell.  A pinned value — operationally, a
previously stored row for this week whose `Div/W` has content (the code's
`"Div/W"` non-empty-after-strip test, its own notion of "manually set") —
is reused verbatim, for any bucket and any cumulative state, so re-running
reconciliation with different dividend totals never alters it; with no such
value, the cell is the formatted `grossDiv / startShares` rate when
`startShares > 0`, and is left blank (`""`, not a zero) otherwise. -/
theorem C5_divW_rule (price : ℚ) (existing : List Row) (st : RState) (kw : String)
    (b : Bucket) :
    (∀ r, existingLookup existing kw = some r → hasContent r.divW = true →
        (processWeek price existing st kw b).2.divW = r.divW)
    ∧ ((∀ r, existingLookup existing kw = some r → hasContent r.divW = false) →
        0 < st.cumulative_shares →
        (processWeek price existing st kw b).2.divW
          = formatFixed4 (b.div_gross / (st.cumulative_shares : ℚ)))
    ∧ ((∀ r, existingLookup existing kw = some r → hasContent r.divW = false) →
        st.cumulative_shares ≤ 0 →
        (processWeek price existing st kw b).2.divW = "") := by
  refine ⟨?_, ?_, ?_⟩
  · intro r hr hcon
    rw [processWeek_divW]
    unfold divWCell
    rw [hr]
    dsimp only
    rw [if_pos hcon]
  · intro hnp hpos
    rw [processWeek_divW]
    unfold divWCell
    cases h : existingLookup existing kw with
    | none => dsimp only; unfold computeDivW; rw [if_pos hpos]
    | some r =>
      dsimp only
      rw [if_neg (by simp [hnp r h])]
      unfold computeDivW
      rw [if_pos hpos]
  · intro hnp hle
    rw [processWeek_divW]
    unfold divWCell
    cases h : existingLookup existing kw with
    | none => dsimp only; unfold computeDivW; rw [if_neg (not_lt.mpr hle)]
    | some r =>
      dsimp only
      rw [if_neg (by simp [hnp r h])]
      unfold computeDivW
      rw [if_neg (not_lt.mpr hle)]

/-- C5 witness: a stored row pinning `Div/W = "0.5000"` for week 01/2025 is
reused verbatim even though the bucket carries a very different gross
dividend. -/
theorem C5_divW_rule_witness :
    (processWeek 0 [pinnedRow] ⟨0, 0, 0, 0⟩ "01/2025" { div_gross := 999 }).2.divW
      = "0.5000" :=
  (C5_divW_rule 0 [pinnedRow] ⟨0, 0, 0, 0⟩ "01/2025" { div_gross := 999 }).1
    pinnedRow (by decide) (by decide)

/-- C10: the sticky-override test is content of the stored `Div/W` string
(Python `.strip()` truthiness), so any stored value with content is copied
verbatim — in particular every value the engine itself formats with `.4f`
has content and therefore persists on later runs even if the week's
dividend totals change — and the `grossDiv / startShares` recomputation
(`computeDivW`) runs exactly for weeks whose stored value is absent or
content-free. -/
theorem C10_sticky_test_is_nonemptiness (price : ℚ) (existing : List Row) (st : RState)
    (kw : String) (b : Bucket) :
    (∀ q : ℚ, hasContent (formatFixed4 q) = true)
    ∧ (∀ r, existingLookup existing kw = some r → hasContent r.divW = true →
        (processWeek price existing st kw b).2.divW = r.divW)
    ∧ (∀ r (q : ℚ), existingLookup existing kw = some r → r.divW = formatFixed4 q →
        (processWeek price existing st kw b).2.divW = formatFixed4 q)
    ∧ ((∀ r, existingLookup existing kw = some r → hasContent r.divW = false) →
        (processWeek price existing st kw b).2.divW
          = computeDivW st.cumulative_shares b.div_gross) := by
  have copy : ∀ r, existingLookup existing kw = some r → hasContent r.divW = true →
      (processWeek price existing st kw b).2.divW = r.divW := by
    intro r hr hcon
    rw [processWeek_divW]
    unfold divWCell
    rw [hr]
    dsimp only
    rw [if_pos hcon]
  refine ⟨hasContent_formatFixed4, copy, ?_, ?_⟩
  · intro r q hr hfmt
    have hcon : hasContent r.divW = true := by rw [hfmt]; exact hasContent_formatFixed4 q
    rw [copy r hr hcon, hfmt]
  · intro hnp
    rw [processWeek_divW]
    unfold divWCell
    cases h : existingLookup existing kw with
    | none => rfl
    | some r =>
      dsimp only
      rw [if_neg (by simp [hnp r h])]

/-- C10 witness: a row whose `Div/W` holds the auto-computed rendering of
`1/3` (an earlier run's `f"{rate:.4f}"` output, never touched by a user) is
copied verbatim into the new row although the bucket's dividend total is
different. -/
theorem C10_sticky_test_is_nonemptiness_witness :
    (processWeek 0 [{ pinnedRow with divW := formatFixed4 (1/3) }] ⟨0, 0, 0, 0⟩
        "01/2025" { div_gross := 777 }).2.divW = formatFixed4 (1/3) :=
  (C10_sticky_test_is_nonemptiness 0 [{ pinnedRow with divW := formatFixed4 (1/3) }]
      ⟨0, 0, 0, 0⟩ "01/2025" { div_gross := 777 }).2.2.1
    { pinnedRow with divW := formatFixed4 (1/3) } (1/3)
    (by with_unfolding_all decide) rfl

/-! ## C7: startShares chaining -/

theorem chained_reconSymbol (p : ℚ) (e : List Row) :
    ∀ (ws : List (String × Bucket)) (st : RState),
      chained st.cumulative_shares (reconSymbol p e st ws).1 := by
  intro ws
  induction ws with
  | nil => intro st; trivial
  | cons w rest ih =>
    intro st
    obtain ⟨kw, b⟩ := w
    show chained st.cumulative_shares
      ((processWeek p e st kw b).2 :: (reconSymbol p e (processWeek p e st kw b).1 rest).1)
    refine ⟨processWeek_start p e st kw b, ?_⟩
    rw [processWeek_gesamt]
    exact ih (processWeek p e st kw b).1

theorem chained_get (s : ℤ) (l : List Row) (hc : chained s l) :
    (∀ i : ℕ, i + 1 < l.length →
        l[i + 1]?.map Row.start = l[i]?.map Row.gesamt)
    ∧ (l ≠ [] → l.head?.map Row.start = some s) := by
  induction l generalizing s with
  | nil => exact ⟨fun i h => absurd h (by simp), fun h => absurd rfl h⟩
  | cons r rs ih =>
    obtain ⟨hs, hrest⟩ := hc
    constructor
    · intro i hi
      cases i with
      | zero =>
        simp only [List.getElem?_cons_succ, List.getElem?_cons_zero]
        cases rs with
        | nil => simp at hi
        | cons r2 rs2 =>
          have h2 := (ih (s := r.gesamt) hrest).2 (by simp)
          simpa using h2
      | succ j =>
        simp only [List.getElem?_cons_succ]
        exact (ih (s := r.gesamt) hrest).1 j (by simpa using hi)
    · intro _
      simp [hs]

/-- C7: in the row sequence one reconciliation pass produces for a symbol,
every row after the first starts with the previous row's total share count,
and the first row starts with 0. -/
theorem C7_start_chain (price : ℚ) (prior : List Row) (weeks : List (String × Bucket)) :
    (∀ i : ℕ, i + 1 < (reconSymbol price prior ⟨0, 0, 0, 0⟩ weeks).1.length →
        (reconSymbol price prior ⟨0, 0, 0, 0⟩ weeks).1[i + 1]?.map Row.start
          = (reconSymbol price prior ⟨0, 0, 0, 0⟩ weeks).1[i]?.map Row.gesamt)
    ∧ ((reconSymbol price prior ⟨0, 0, 0, 0⟩ weeks).1 ≠ [] →
        (reconSymbol price prior ⟨0, 0, 0, 0⟩ weeks).1.head?.map Row.start = some 0) :=
  chained_get 0 _ (chained_reconSymbol price prior weeks ⟨0, 0, 0, 0⟩)

/-- C7 witness: on the concrete two-week input (buy week then sell week)
the second row starts with the first row's total, and the first row starts
at 0. -/
theorem C7_start_chain_witness :
    (reconSymbol 55 [] ⟨0, 0, 0, 0⟩
        [("01/2025", c2bucket), ("03/2025", sellBucket)]).1[0 + 1]?.map Row.start
      = (reconSymbol 55 [] ⟨0, 0, 0, 0⟩
        [("01/2025", c2bucket), ("03/2025", sellBucket)]).1[0]?.map Row.gesamt
    ∧ (reconSymbol 55 [] ⟨0, 0, 0, 0⟩
        [("01/2025", c2bucket), ("03/2025", sellBucket)]).1.head?.map Row.start = some 0 :=
  ⟨(C7_start_chain 55 [] [("01/2025", c2bucket), ("03/2025", sellBucket)]).1 0
      (by with_unfolding_all decide),
   (C7_start_chain 55 [] [("01/2025", c2bucket), ("03/2025", sellBucket)]).2
      (by with_unfolding_all decide)⟩

/-! ## C8: idempotence of the reconciliation pass -/

theorem reconSymbol_map_kw (p : ℚ) (e : List Row) :
    ∀ (ws : List (String × Bucket)) (st : RState),
      (reconSymbol p e st ws).1.map Row.kw = ws.map Prod.fst := by
  intro ws
  induction ws with
  | nil => intro st; rfl
  | cons w rest ih =>
    intro st
    obtain ⟨kw, b⟩ := w
    show ((processWeek p e st kw b).2
        :: (reconSymbol p e (processWeek p e st kw b).1 rest).1).map Row.kw
      = kw :: rest.map Prod.fst
    rw [List.map_cons, processWeek_kw, ih]

theorem existingLookup_cons_head (r : Row) (rs : List Row) (kw : String)
    (h : ∀ r' ∈ rs, (r'.kw == kw) = false) :
    existingLookup (r :: rs) kw = if r.kw == kw then some r else none := by
  unfold existingLookup
  rw [List.reverse_cons, List.find?_append]
  have hn : rs.reverse.find? (fun r' => r'.kw == kw) = none :=
    List.find?_eq_none.mpr fun x hx => by simp [h x (List.mem_reverse.mp hx)]
  rw [hn]
  cases hbr : (r.kw == kw) with
  | true => simp [List.find?_cons_of_pos, hbr]
  | false => simp [List.find?_cons_of_neg, hbr]

theorem existingLookup_cons_of_ne (r : Row) (rs : List Row) (kw : String)
    (h : (r.kw == kw) = false) :
    existingLookup (r :: rs) kw = existingLookup rs kw := by
  unfold existingLookup
  rw [List.reverse_cons, List.find?_append]
  have hr1 : List.find? (fun r' => r'.kw == kw) [r] = none := by
    simp [List.find?_cons_of_neg, h]
  rw [hr1]
  simp

theorem divWCell_stable (prior1 prior2 : List Row) (kw : String) (s : ℤ) (g : ℚ) (r : Row)
    (h2 : existingLookup prior2 kw = some r)
    (hr : r.divW = divWCell prior1 kw s g) :
    divWCell prior2 kw s g = divWCell prior1 kw s g := by
  have hl2 : divWCell prior2 kw s g
      = if hasContent r.divW = true then r.divW else computeDivW s g := by
    unfold divWCell
    rw [h2]
  rw [hl2]
  by_cases hcon : hasContent r.divW = true
  · rw [if_pos hcon]
    exact hr
  · rw [if_neg hcon]
    unfold divWCell
    cases hl : existingLookup prior1 kw with
    | none => rfl
    | some r1 =>
      dsimp only
      by_cases hc1 : hasContent r1.divW = true
      · rw [if_pos hc1]
        have heq : r.divW = r1.divW := by
          rw [hr]
          unfold divWCell
          rw [hl]
          dsimp only
          rw [if_pos hc1]
        exact absurd (by rw [heq]; exact hc1) hcon
      · rw [if_neg hc1]

theorem processWeek_congr_existing (p : ℚ) (e1 e2 : List Row) (st : RState)
    (kw : String) (b : Bucket)
    (h : divWCell e2 kw st.cumulative_shares b.div_gross
       = divWCell e1 kw st.cumulative_shares b.div_gross) :
    processWeek p e2 st kw b = processWeek p e1 st kw b := by
  simp only [processWeek]
  rw [h]

theorem recon_stable (p : ℚ) (prior1 : List Row) :
    ∀ (ws : List (String × Bucket)) (st : RState) (prior2 : List Row),
      (ws.map Prod.fst).Nodup →
      (∀ kw, kw ∈ ws.map Prod.fst →
        existingLookup prior2 kw = existingLookup (reconSymbol p prior1 st ws).1 kw) →
      reconSymbol p prior2 st ws = reconSymbol p prior1 st ws := by
  intro ws
  induction ws with
  | nil => intro st prior2 _ _; rfl
  | cons w rest ih =>
    intro st prior2 hnd hmatch
    obtain ⟨kw, b⟩ := w
    have hmapcons : ((kw, b) :: rest).map Prod.fst = kw :: rest.map Prod.fst := rfl
    rw [hmapcons] at hnd
    have hkwnot : kw ∉ rest.map Prod.fst := (List.nodup_cons.mp hnd).1
    have hnd' : (rest.map Prod.fst).Nodup := (List.nodup_cons.mp hnd).2
    have hrows : (reconSymbol p prior1 st ((kw, b) :: rest)).1
        = (processWeek p prior1 st kw b).2
          :: (reconSymbol p prior1 (processWeek p prior1 st kw b).1 rest).1 := rfl
    have htailkw : ∀ r' ∈ (reconSymbol p prior1 (processWeek p prior1 st kw b).1 rest).1,
        (r'.kw == kw) = false := by
      intro r' hmem
      have hmemk : r'.kw ∈ rest.map Prod.fst := by
        rw [← reconSymbol_map_kw p prior1 rest (processWeek p prior1 st kw b).1]
        exact List.mem_map_of_mem Row.kw hmem
      have hne : r'.kw ≠ kw := fun he => hkwnot (he ▸ hmemk)
      simpa using hne
    have hlook1 : existingLookup (reconSymbol p prior1 st ((kw, b) :: rest)).1 kw
        = some (processWeek p prior1 st kw b).2 := by
      rw [hrows, existingLookup_cons_head _ _ _ htailkw, processWeek_kw]
      simp
    have hlm := hmatch kw (by simp)
    rw [hlook1] at hlm
    have hdw : divWCell prior2 kw st.cumulative_shares b.div_gross
        = divWCell prior1 kw st.cumulative_shares b.div_gross :=
      divWCell_stable prior1 prior2 kw st.cumulative_shares b.div_gross
        (processWeek p prior1 st kw b).2 hlm
        (processWeek_divW p prior1 st kw b)
    have hstep : processWeek p prior2 st kw b = processWeek p prior1 st kw b :=
      processWeek_congr_existing p prior1 prior2 st kw b hdw
    have hmatch' : ∀ kw', kw' ∈ rest.map Prod.fst →
        existingLookup prior2 kw'
          = existingLookup (reconSymbol p prior1 (processWeek p prior1 st kw b).1 rest).1 kw' := by
      intro kw' hmem
      have hne : ((processWeek p prior1 st kw b).2.kw == kw') = false := by
        rw [processWeek_kw]
        have : kw ≠ kw' := fun he => hkwnot (he ▸ hmem)
        simpa using this
      have hm := hmatch kw' (by simp [hmem])
      rw [hrows, existingLookup_cons_of_ne _ _ _ hne] at hm
      exact hm
    have htail := ih (processWeek p prior1 st kw b).1 prior2 hnd' hmatch'
    show ((processWeek p prior2 st kw b).2
          :: (reconSymbol p prior2 (processWeek p prior2 st kw b).1 rest).1,
        (reconSymbol p prior2 (processWeek p prior2 st kw b).1 rest).2)
      = ((processWeek p prior1 st kw b).2
          :: (reconSymbol p prior1 (processWeek p prior1 st kw b).1 rest).1,
        (reconSymbol p prior1 (processWeek p prior1 st kw b).1 rest).2)
    rw [hstep, htail]

/-- C8: running the reconciliation pass a second time on the same sorted
week list (hence the same normalized event set), with the first run's
output rows as the stored prior state and the same current price, yields an
identical row sequence — `PositionRow`-for-`PositionRow`.  The week keys of
one symbol are dict keys, hence pairwise distinct (`Nodup`). -/
theorem C8_idempotent (price : ℚ) (prior : List Row) (weeks : List (String × Bucket))
    (hnd : (weeks.map Prod.fst).Nodup) :
    (reconSymbol price (reconSymbol price prior ⟨0, 0, 0, 0⟩ weeks).1
        ⟨0, 0, 0, 0⟩ weeks).1
      = (reconSymbol price prior ⟨0, 0, 0, 0⟩ weeks).1 := by
  rw [recon_stable price prior weeks ⟨0, 0, 0, 0⟩
    (reconSymbol price prior ⟨0, 0, 0, 0⟩ weeks).1 hnd (fun kw _ => rfl)]

/-- C8 witness: idempotence at the concrete two-week input. -/
theorem C8_idempotent_witness :
    (reconSymbol 55
        (reconSymbol 55 [] ⟨0, 0, 0, 0⟩ [("01/2025", c2bucket), ("03/2025", sellBucket)]).1
        ⟨0, 0, 0, 0⟩ [("01/2025", c2bucket), ("03/2025", sellBucket)]).1
      = (reconSymbol 55 [] ⟨0, 0, 0, 0⟩ [("01/2025", c2bucket), ("03/2025", sellBucket)]).1 :=
  C8_idempotent 55 [] [("01/2025", c2bucket), ("03/2025", sellBucket)] (by decide)

/-! ## C9: tracked symbols after a sync -/

theorem mem_divSymStep (s : String) (l : List String) (a : Activity) :
    s ∈ divSymStep l a
      ↔ s ∈ l ∨ ((a.activity_type = "DIV" ∨ a.activity_type = "DIVNRA")
          ∧ a.symbol = some s ∧ s ≠ "") := by
  unfold divSymStep
  by_cases hty : a.activity_type = "DIV" ∨ a.activity_type = "DIVNRA"
  · rw [if_pos hty]
    cases hsym : a.symbol with
    | none => simp [hty]
    | some t =>
      dsimp only
      by_cases hc : t ≠ "" ∧ t ∉ l
      · rw [if_pos hc]
        simp only [List.mem_append, List.mem_singleton, hty, true_and,
          Option.some.injEq]
        constructor
        · rintro (h | rfl)
          · exact Or.inl h
          · exact Or.inr ⟨rfl, hc.1⟩
        · rintro (h | ⟨rfl, hne⟩)
          · exact Or.inl h
          · exact Or.inr rfl
      · rw [if_neg hc]
        push_neg at hc
        simp only [hty, true_and, Option.some.injEq]
        constructor
        · exact Or.inl
        · rintro (h | ⟨rfl, hne⟩)
          · exact h
          · exact hc hne
  · rw [if_neg hty]
    simp [hty]

theorem mem_foldl_divSymStep (s : String) :
    ∀ (acts : List Activity) (l : List String),
      s ∈ acts.foldl divSymStep l
        ↔ s ∈ l ∨ ∃ a ∈ acts,
            (a.activity_type = "DIV" ∨ a.activity_type = "DIVNRA")
            ∧ a.symbol = some s ∧ s ≠ "" := by
  intro acts
  induction acts with
  | nil => intro l; simp
  | cons a rest ih =>
    intro l
    rw [List.foldl_cons, ih (divSymStep l a), mem_divSymStep]
    simp only [List.mem_cons]
    constructor
    · rintro ((h | h) | ⟨x, hx, hq⟩)
      · exact Or.inl h
      · exact Or.inr ⟨a, Or.inl rfl, h⟩
      · exact Or.inr ⟨x, Or.inr hx, hq⟩
    · rintro (h | ⟨x, (rfl | hx), hq⟩)
      · exact Or.inl (Or.inl h)
      · exact Or.inl (Or.inr hq)
      · exact Or.inr ⟨x, hx, hq⟩

theorem symbolsWithDivs_mem (s : String) (acts : List Activity) :
    s ∈ symbolsWithDivs acts
      ↔ s ≠ "" ∧ ∃ a ∈ acts,
          (a.activity_type = "DIV" ∨ a.activity_type = "DIVNRA") ∧ a.symbol = some s := by
  unfold symbolsWithDivs
  rw [mem_foldl_divSymStep]
  simp only [List.not_mem_nil, false_or]
  constructor
  · rintro ⟨a, ha, hty, hsym, hne⟩
    exact ⟨hne, a, ha, hty, hsym⟩
  · rintro ⟨hne, a, ha, hty, hsym⟩
    exact ⟨a, ha, hty, hsym, hne⟩

theorem preStates_keys_mem (sym : String) (prior : List (String × SymState))
    (acts : List Activity) :
    sym ∈ (preStates prior acts).map Prod.fst ↔ sym ∈ symbolsWithDivs acts := by
  simp only [preStates]
  constructor
  · intro h
    rcases List.mem_map.mp h with ⟨p, hp, rfl⟩
    rcases List.mem_append.mp hp with h1 | h2
    · simpa using (List.mem_filter.mp h1).2
    · rcases List.mem_map.mp h2 with ⟨t, ht, rfl⟩
      exact (List.mem_filter.mp ht).1
  · intro hmem
    by_cases hin : sym ∈ (prior.filter fun p =>
        decide (p.1 ∈ symbolsWithDivs acts)).map Prod.fst
    · apply List.mem_map.mpr
      rcases List.mem_map.mp hin with ⟨p, hp, rfl⟩
      exact ⟨p, List.mem_append.mpr (Or.inl hp), rfl⟩
    · apply List.mem_map.mpr
      refine ⟨(sym, ⟨0, []⟩), List.mem_append.mpr (Or.inr ?_), rfl⟩
      apply List.mem_map.mpr
      refine ⟨sym, ?_, rfl⟩
      exact List.mem_filter.mpr ⟨hmem, by simpa using hin⟩

theorem updateState_map_fst (sts : List (String × SymState)) (sym : String) (v : SymState) :
    (updateState sts sym v).map Prod.fst = sts.map Prod.fst := by
  unfold updateState
  rw [List.map_map]
  apply List.map_congr_left
  intro p hp
  by_cases h : p.1 = sym <;> simp [h]

theorem foldl_updateState_map_fst (f : List (String × SymState) → String → SymState) :
    ∀ (syms : List String) (sts : List (String × SymState)),
      (syms.foldl (fun sts sym => updateState sts sym (f sts sym)) sts).map Prod.fst
        = sts.map Prod.fst := by
  intro syms
  induction syms with
  | nil => intro sts; rfl
  | cons sym rest ih =>
    intro sts
    rw [List.foldl_cons, ih, updateState_map_fst]

/-- C9: assuming the sync completed (no date-parse exception), a symbol is
present in the post-sync tracked state exactly when the fetched activity
list carries at least one `DIV` or `DIVNRA` record for it (with a truthy
symbol field — the empty string is never a tracked symbol). -/
theorem C9_symbol_presence (current_kw : String) (prices : String → ℚ)
    (ignored_trades : List String) (prior : List (String × SymState))
    (acts : List Activity) (s2 : List (String × SymState)) (sym : String)
    (hok : alpacaSyncCore current_kw prices ignored_trades prior acts = .ok s2)
    (hne : sym ≠ "") :
    sym ∈ s2.map Prod.fst
      ↔ ∃ a ∈ acts,
          (a.activity_type = "DIV" ∨ a.activity_type = "DIVNRA") ∧ a.symbol = some sym := by
  unfold alpacaSyncCore at hok
  cases hg : groupActs ((preStates prior acts).map Prod.fst) ignored_trades acts with
  | error e => rw [hg] at hok; simp [Except.map] at hok
  | ok g =>
    rw [hg] at hok
    simp only [Except.map, Except.ok.injEq] at hok
    rw [← hok, foldl_updateState_map_fst, preStates_keys_mem, symbolsWithDivs_mem]
    simp [hne]

/-- C9 witness: after syncing the single dividend activity for AAA from an
empty prior state, AAA is a tracked symbol. -/
theorem C9_symbol_presence_witness :
    "AAA" ∈ (((alpacaSyncCore "02/2025" (fun _ => 0) [] [] [divAAA]).toOption.getD []).map
        Prod.fst) :=
  (C9_symbol_presence "02/2025" (fun _ => 0) [] [] [divAAA]
      ((alpacaSyncCore "02/2025" (fun _ => 0) [] [] [divAAA]).toOption.getD []) "AAA"
      (by with_unfolding_all rfl) (by decide)).mpr
    ⟨divAAA, by decide, by decide, rfl⟩
